import Mathlib

/-!
# rlox — a shallow embedding of the tree-walking interpreter, with proofs

This file embeds the evaluation core of the rlox repository in Lean 4 and
proves properties of the embedded code.

Sources embedded (the repository keeps three revisions of the interpreter;
the definitions below follow the files the claims cite):

* `src/interpreter/src/interpreter.rs` — `Environment` (`get_variable`,
  `define_variable`, `assign_variable`) and `Interpreter`
  (`evaluate_stmt`, `evaluate_expr`, `is_truthy`), including the
  `ReturnError` control-flow signal transported through the error channel.
* `src/interpreter/src/value.rs` — the `Value` union and `Object` (an
  `Arc` whose `PartialEq` is pointer identity; modelled by an allocation
  id assigned from a monotone counter).
* `src/rlox_interpreter/src/func.rs` — `FunctionObject::call`,
  `NativeFunction::call` and the `impls::CLOCK` native.
* `src/rlox_interpreter/src/resolver.rs` — the static `Scope::resolve`
  depth computation.
* `src/src/token.rs` — `TokenKind`.

Modelling conventions:

* Rust `f64` numbers are modelled by `ℚ`.  Every arithmetic operation the
  claims exercise stays on small integers, where `f64` is exact and agrees
  with `ℚ`; float rounding and NaN behaviour are outside the model.
* The shared mutable environment graph (`Arc<Mutex<Environment>>`) is
  modelled by a store (`List Environment`) indexed by allocation order;
  an environment pointer is an index into the store.  `Environment::new_ptr`
  appends to the store, so a parent index is always smaller than its
  child's; the chain-walking functions guard their recursion with that
  fact (`p < id`), which never fails on stores the interpreter builds.
* The host call stack is modelled by fuel: every recursive evaluator call
  decrements it, and exhaustion (`none`) models stack exhaustion, the
  fatal condition of §5 of the design.
* `anyhow::Error` is modelled by `EvalError`; the `ReturnError` payload
  that the Rust code transports through the same channel and recovers by
  `downcast` is the constructor `EvalError.ret`.
-/

/- Batteries marks the rational operations irreducible for elaboration
performance; concrete interpreter runs below are checked by evaluation, so
restore reducibility for this file. -/
set_option allowUnsafeReducibility true
attribute [local semireducible] Rat.add Rat.sub Rat.mul Rat.inv Rat.div Rat.neg

/-- The token kinds, `TokenKind` from `src/src/token.rs`, as used by the evaluator. -/
inductive TokenKind where
  | leftParen | rightParen | leftBrace | rightBrace
  | comma | dot | minus | plus | semicolon | slash | star
  | bang | bangEqual | equal | equalEqual
  | greater | greaterEqual | less | lessEqual
  | identifier | stringTok | number
  | andTok | classTok | elseTok | falseTok | fun_ | forTok | ifTok
  | nilTok | orTok | printTok | returnTok | superTok | thisTok | trueTok
  | varTok | whileTok | eof
  deriving DecidableEq, Repr

/-- Parsed literals, `Literal` from `src/syntax-tree/src/ast.rs`. -/
inductive Lit where
  | number (n : ℚ)
  | string (s : String)
  | boolean (b : Bool)
  | nil
  deriving DecidableEq, Repr

/-- Expressions, `Expr` from `src/syntax-tree/src/ast.rs` (the unique-id bookkeeping
fields of the `rlox_syntax` revision are not semantically relevant and are
omitted, per §9 of the design notes). -/
inductive Expr where
  | binary (left : Expr) (operator : TokenKind) (right : Expr)
  | grouping (e : Expr)
  | literal (l : Lit)
  | unary (operator : TokenKind) (right : Expr)
  | var (name : String)
  | assign (name : String) (value : Expr)
  | logical (left : Expr) (operator : TokenKind) (right : Expr)
  | call (callee : Expr) (arguments : List Expr)

/-- Statements, `Statement` from `src/syntax-tree/src/ast.rs`. -/
inductive Statement where
  | expression (e : Expr)
  | print (e : Expr)
  | variableDecl (name : String) (init : Option Expr)
  | block (stmts : List Statement)
  | ifStmt (condition : Expr) (thenBranch : Statement) (elseBranch : Option Statement)
  | whileStmt (condition : Expr) (body : Statement)
  | function (name : String) (params : List String) (body : Statement)
  | returnStmt (e : Option Expr)

/-- The implementations behind the native-function pointers registered in
`func::impls::ALL_FUNCS` (`src/rlox_interpreter/src/func.rs`): only `CLOCK`. -/
inductive NativeTag where
  | clock
  deriving DecidableEq, Repr

/-- Native-function descriptors, `NativeFunction` from `src/rlox_interpreter/src/func.rs`; the `func`
pointer is modelled by the tag dispatched in `callNative`. -/
structure NativeFunction where
  name : String
  arity : Nat
  tag : NativeTag
  deriving DecidableEq, Repr

/-- User function objects, `FunctionObject` from `src/rlox_interpreter/src/func.rs`.  `closure` is
the store index of the captured environment; `objId` models the `Arc`
allocation identity that `Object`'s `PartialEq` compares. -/
structure FunctionObject where
  name : String
  parameters : List String
  body : Statement
  closure : Nat
  objId : Nat

/-- Runtime values, `Value` from `src/interpreter/src/value.rs`. -/
inductive Value where
  | number (n : ℚ)
  | string (s : String)
  | boolean (b : Bool)
  | nil
  | nativeFunction (f : NativeFunction)
  | functionObject (f : FunctionObject)

/-- Rust `PartialEq` on `Value`: structural on primitives; `Object`'s
`Arc::ptr_eq` on function objects (allocation ids); `NativeFunction`'s
custom `eq` compares arity and function pointer. -/
def valueEq : Value → Value → Bool
  | .number a, .number b => a == b
  | .string a, .string b => a == b
  | .boolean a, .boolean b => a == b
  | .nil, .nil => true
  | .nativeFunction f, .nativeFunction g => f.arity == g.arity && f.tag == g.tag
  | .functionObject f, .functionObject g => f.objId == g.objId
  | _, _ => false

/-- Conversion of literals to values, `impl From<Literal> for Value` from `src/interpreter/src/value.rs`. -/
def Lit.toValue : Lit → Value
  | .number n => .number n
  | .string s => .string s
  | .boolean b => .boolean b
  | .nil => .nil

/-- The error taxonomy (§7).  The Rust code reports failures as
`anyhow::Error` strings; each constructor corresponds to one `bail!` site.
`ret` is the `ReturnError` control-flow signal, which shares the transport
channel with failures and is recovered by `downcast` at call boundaries. -/
inductive EvalError where
  | undefinedVariable (name : String)
  | unsupportedBinary (op : TokenKind)
  | unsupportedUnary (op : TokenKind)
  | dividedByZero
  | arityTooFew
  | arityTooMany
  | notCallable
  | ret (v : Value)

/-- The two arity-check `bail!` sites of `FunctionObject::call` are the
`ArityMismatch` failure kind of §7. -/
def EvalError.isArityMismatch : EvalError → Bool
  | .arityTooFew => true
  | .arityTooMany => true
  | _ => false

/-- One environment of the chain (`Environment` in
`src/interpreter/src/interpreter.rs`): a name→value mapping plus an
optional parent pointer (a store index). -/
structure Environment where
  parent : Option Nat
  vars : List (String × Value)

/-- The heap of environments; `Arc<Mutex<Environment>>` pointers are
indices into this list, in allocation order. -/
abbrev Store := List Environment

/-- Lookup in the mapping, `HashMap::get`. -/
def lookupVar : List (String × Value) → String → Option Value
  | [], _ => none
  | (k, v) :: rest, name => if k = name then some v else lookupVar rest name

/-- Insertion into the mapping, `HashMap::insert`: overwrite the binding if the key is present,
otherwise add it. -/
def insertVar : List (String × Value) → String → Value → List (String × Value)
  | [], name, v => [(name, v)]
  | (k, w) :: rest, name, v =>
    if k = name then (k, v) :: rest else (k, w) :: insertVar rest name v

/-- Variable lookup, the recursion of `Environment::get_variable`: check
the local mapping, then the parent chain.  The walk recurses along parent
pointers; `bound` is a structural bound on the recursion (any value above
the starting index works, because a parent is always allocated before its
child, so indices strictly decrease along the chain; the `p < id` guard
makes that explicit and never fires on stores the interpreter builds). -/
def getVarAux : Nat → Store → Nat → String → Except EvalError Value
  | 0, _, _, name => .error (.undefinedVariable name)
  | bound + 1, s, id, name =>
    match s[id]? with
    | none => .error (.undefinedVariable name)
    | some env =>
      match lookupVar env.vars name with
      | some v => .ok v
      | none =>
        match env.parent with
        | some p =>
          if p < id then getVarAux bound s p name
          else .error (.undefinedVariable name)
        | none => .error (.undefinedVariable name)

/-- Variable lookup, `Environment::get_variable`. -/
def getVariable (s : Store) (id : Nat) (name : String) : Except EvalError Value :=
  getVarAux (id + 1) s id name

/-- Replace the environment at index `i`. -/
def updateEnv (s : Store) (i : Nat) (f : Environment → Environment) : Store :=
  match s[i]? with
  | none => s
  | some env => s.set i (f env)

/-- Variable definition, `Environment::define_variable`: insert or overwrite in this
environment only. -/
def defineVariable (s : Store) (id : Nat) (name : String) (v : Value) : Store :=
  updateEnv s id (fun env => { env with vars := insertVar env.vars name v })

/-- Variable assignment, the recursion of `Environment::assign_variable`:
overwrite in the nearest enclosing environment that already defines the
name; fail with the undefined-variable error if none does.  `bound` is the
same structural recursion bound as in `getVarAux`. -/
def assignVarAux : Nat → Store → Nat → String → Value → Except EvalError Store
  | 0, _, _, name, _ => .error (.undefinedVariable name)
  | bound + 1, s, id, name, v =>
    match s[id]? with
    | none => .error (.undefinedVariable name)
    | some env =>
      if (lookupVar env.vars name).isSome then
        .ok (defineVariable s id name v)
      else
        match env.parent with
        | some p =>
          if p < id then assignVarAux bound s p name v
          else .error (.undefinedVariable name)
        | none => .error (.undefinedVariable name)

/-- Variable assignment, `Environment::assign_variable`. -/
def assignVariable (s : Store) (id : Nat) (name : String) (v : Value) :
    Except EvalError Store :=
  assignVarAux (id + 1) s id name v

/-- The store index of the nearest environment in the chain from `id` that
defines `name` (specification-side description of the chain walk the two
functions above perform), with the same structural bound. -/
def nearestDefAux : Nat → Store → Nat → String → Option Nat
  | 0, _, _, _ => none
  | bound + 1, s, id, name =>
    match s[id]? with
    | none => none
    | some env =>
      if (lookupVar env.vars name).isSome then
        some id
      else
        match env.parent with
        | some p => if p < id then nearestDefAux bound s p name else none
        | none => none

/-- The nearest environment in the chain from `id` that defines `name`. -/
def nearestDefining (s : Store) (id : Nat) (name : String) : Option Nat :=
  nearestDefAux (id + 1) s id name

/-- Stores built by the interpreter satisfy this: every parent pointer
refers to an earlier allocation. -/
def wfStore (s : Store) : Bool :=
  (List.range s.length).all fun i =>
    match s[i]? with
    | none => true
    | some env =>
      match env.parent with
      | none => true
      | some p => p < i

/-- The clock native, `impls::CLOCK` from `src/rlox_interpreter/src/func.rs`: registered
under the name `clock` with arity 2. -/
def CLOCK : NativeFunction := { name := "clock", arity := 2, tag := .clock }

/-- The native registry, `ALL_FUNCS`. -/
def ALL_FUNCS : List NativeFunction := [CLOCK]

/-- The root environment, `Environment::new_globals_ptr`: a parentless environment pre-populated
with every native function under its registered name. -/
def globalsEnv : Environment :=
  { parent := none
    vars := ALL_FUNCS.map fun f => (f.name, Value.nativeFunction f) }

/-- Truthiness, `Interpreter::is_truthy`: `Nil` and `Boolean(false)` are
falsy; everything else is truthy. -/
def isTruthy : Value → Bool
  | .nil => false
  | .boolean b => b
  | _ => true

/-- Rendering of a number for `print`.  The Rust code formats values with
the derived `Debug`, so a number prints as `f64`'s `Debug` output; on
integer values (the only numbers the claims print) that is the integer
followed by `.0`, which this function reproduces exactly.  Non-integral
rationals fall back to a num/den rendering; `f64`'s shortest-roundtrip
decimal output for such values is outside the model. -/
def formatRat (q : ℚ) : String :=
  if q.den = 1 then toString q.num ++ ".0"
  else toString q.num ++ "/" ++ toString q.den

/-- Rendering of a value for the `print` statement: the Rust code sends
`format!("{:?}", value)` to the printer, i.e. the derived `Debug` of
`Value` (string escaping and the native-function pointer address are not
modelled; no claim prints those). -/
def formatValue : Value → String
  | .number n => "Number(" ++ formatRat n ++ ")"
  | .string s => "String(\"" ++ s ++ "\")"
  | .boolean b => "Boolean(" ++ (if b then "true" else "false") ++ ")"
  | .nil => "Nil"
  | .nativeFunction f => "NativeFunction(" ++ f.name ++ ")"
  | .functionObject f => "FunctionObject(Object(FunctionObject(\"" ++ f.name ++ "\")))"

/-- The mutable interpreter context: the environment heap, the output
sink's accumulated lines (the `Printer` collaborator), the allocation
counter behind `Object::new`, and the value the host clock reports
(`SystemTime::now`, read by the `clock` native). -/
structure InterpState where
  envs : Store
  output : List String
  nextObjId : Nat
  time : ℚ

/-- Evaluation outcome: `none` models host-stack exhaustion (the fuel ran
out), `some` an `anyhow::Result`. -/
abbrev Res (α : Type) := Option (Except EvalError α)

/-- Sequencing of fallible, state-threading evaluation steps — the `?`
operator of the Rust code. -/
def resBind {α β : Type} (r : Res α × InterpState)
    (f : α → InterpState → Res β × InterpState) : Res β × InterpState :=
  match r with
  | (some (.ok a), st) => f a st
  | (some (.error e), st) => (some (.error e), st)
  | (none, st) => (none, st)

/-- The call-boundary interception (`Interpreter::evaluate_expr`, `Call`
arm): the result of a callable invocation is downcast; a `ReturnError`
becomes the call's result value, every other error is re-raised. -/
def interceptReturn (r : Res Value × InterpState) : Res Value × InterpState :=
  match r with
  | (some (.error (.ret v)), st) => (some (.ok v), st)
  | other => other

/-- Dispatch of the binary operators on already-evaluated operands
(`Interpreter::evaluate_expr`, `BinaryExpr` arm). -/
def evalBinary : Value → TokenKind → Value → Except EvalError Value
  | .number l, .plus, .number r => .ok (.number (l + r))
  | .string l, .plus, .string r => .ok (.string (l ++ r))
  | .number l, .minus, .number r => .ok (.number (l - r))
  | .number l, .star, .number r => .ok (.number (l * r))
  | .number l, .slash, .number r =>
    if r = 0 then .error .dividedByZero else .ok (.number (l / r))
  | .number l, .greater, .number r => .ok (.boolean (decide (l > r)))
  | .number l, .greaterEqual, .number r => .ok (.boolean (decide (l ≥ r)))
  | .number l, .less, .number r => .ok (.boolean (decide (l < r)))
  | .number l, .lessEqual, .number r => .ok (.boolean (decide (l ≤ r)))
  | lval, .equalEqual, rval => .ok (.boolean (valueEq lval rval))
  | lval, .bangEqual, rval => .ok (.boolean (!valueEq lval rval))
  | _, op, _ => .error (.unsupportedBinary op)

/-- Dispatch of the unary operators on an already-evaluated operand
(`Interpreter::evaluate_expr`, `UnaryExpr` arm).  Note the `Bang` arm is
the source's verbatim behaviour: it returns
`Value::Boolean(Self::is_truthy(&rval))`, the truthiness itself, not its
negation. -/
def evalUnary : TokenKind → Value → Except EvalError Value
  | .minus, .number n => .ok (.number (-n))
  | .bang, rval => .ok (.boolean (isTruthy rval))
  | op, _ => .error (.unsupportedUnary op)

/-- Fold of `define_variable` over the parameter/argument zip in
`FunctionObject::call`, starting from the fresh environment's empty map. -/
def bindParams (params : List String) (args : List Value) : List (String × Value) :=
  (params.zip args).foldl (fun m pa => insertVar m pa.1 pa.2) []

/-- Invocation of a native function, `NativeFunction::call`: the stored
function pointer is applied directly, with no arity check.  Only `clock`
exists; it ignores its arguments and returns the host time. -/
def callNative (f : NativeFunction) (st : InterpState) (_args : List Value) :
    Res Value × InterpState :=
  match f.tag with
  | .clock => (some (.ok (.number st.time)), st)

mutual

/-- Expression evaluation, `Interpreter::evaluate_expr` from
`src/interpreter/src/interpreter.rs`, with the call path inlined from
`FunctionObject::call` / `NativeFunction::call` (`callFunction`,
`callNative`).  Fuel models the host call stack. -/
def evalExpr : Nat → InterpState → Nat → Expr → Res Value × InterpState
  | 0, st, _, _ => (none, st)
  | fuel + 1, st, envId, e =>
    match e with
    | .binary left op right =>
      resBind (evalExpr fuel st envId left) fun lval st1 =>
      resBind (evalExpr fuel st1 envId right) fun rval st2 =>
        (some (evalBinary lval op rval), st2)
    | .grouping inner => evalExpr fuel st envId inner
    | .literal l => (some (.ok l.toValue), st)
    | .unary op right =>
      resBind (evalExpr fuel st envId right) fun rval st1 =>
        (some (evalUnary op rval), st1)
    | .var name => (some (getVariable st.envs envId name), st)
    | .assign name value =>
      resBind (evalExpr fuel st envId value) fun v st1 =>
        match assignVariable st1.envs envId name v with
        | .ok envs1 => (some (.ok v), { st1 with envs := envs1 })
        | .error err => (some (.error err), st1)
    | .logical left op right =>
      resBind (evalExpr fuel st envId left) fun lval st1 =>
        match op with
        | .orTok =>
          if isTruthy lval then (some (.ok lval), st1)
          else evalExpr fuel st1 envId right
        | .andTok =>
          if !isTruthy lval then (some (.ok lval), st1)
          else evalExpr fuel st1 envId right
        | _ => evalExpr fuel st1 envId right
    | .call callee arguments =>
      resBind (evalExpr fuel st envId callee) fun callable st1 =>
      resBind (evalArgs fuel st1 envId arguments) fun argValues st2 =>
        match callable with
        | .nativeFunction f => interceptReturn (callNative f st2 argValues)
        | .functionObject f => interceptReturn (callFunction fuel st2 f argValues)
        | _ => (some (.error .notCallable), st2)

/-- Left-to-right evaluation of a call's argument expressions (the `for`
loop of the `Call` arm). -/
def evalArgs : Nat → InterpState → Nat → List Expr → Res (List Value) × InterpState
  | 0, st, _, _ => (none, st)
  | _ + 1, st, _, [] => (some (.ok []), st)
  | fuel + 1, st, envId, e :: es =>
    resBind (evalExpr fuel st envId e) fun v st1 =>
    resBind (evalArgs fuel st1 envId es) fun vs st2 =>
      (some (.ok (v :: vs)), st2)

/-- Invocation of a user function, `FunctionObject::call` from
`src/rlox_interpreter/src/func.rs`: the arity check (distinguishing too
few from too many), one fresh child environment of the captured closure
holding the parameter bindings, evaluation of the body statement in it,
and `Nil` on normal completion. -/
def callFunction : Nat → InterpState → FunctionObject → List Value → Res Value × InterpState
  | 0, st, _, _ => (none, st)
  | fuel + 1, st, f, args =>
    match compare args.length f.parameters.length with
    | .lt => (some (.error .arityTooFew), st)
    | .gt => (some (.error .arityTooMany), st)
    | .eq =>
      let envId := st.envs.length
      let env : Environment := { parent := some f.closure, vars := bindParams f.parameters args }
      let st1 := { st with envs := st.envs ++ [env] }
      resBind (evalStmt fuel st1 envId f.body) fun _ st2 =>
        (some (.ok Value.nil), st2)

/-- Statement execution, `Interpreter::evaluate_stmt` from
`src/interpreter/src/interpreter.rs`. -/
def evalStmt : Nat → InterpState → Nat → Statement → Res Unit × InterpState
  | 0, st, _, _ => (none, st)
  | fuel + 1, st, envId, s =>
    match s with
    | .expression e =>
      resBind (evalExpr fuel st envId e) fun _ st1 => (some (.ok ()), st1)
    | .print e =>
      resBind (evalExpr fuel st envId e) fun v st1 =>
        (some (.ok ()), { st1 with output := st1.output ++ [formatValue v] })
    | .variableDecl name init =>
      resBind (match init with
               | some e => evalExpr fuel st envId e
               | none => (some (.ok Value.nil), st)) fun v st1 =>
        (some (.ok ()), { st1 with envs := defineVariable st1.envs envId name v })
    | .block ss =>
      let childId := st.envs.length
      let st1 := { st with envs := st.envs ++ [{ parent := some envId, vars := [] }] }
      evalStmts fuel st1 childId ss
    | .ifStmt condition thenBranch elseBranch =>
      resBind (evalExpr fuel st envId condition) fun cv st1 =>
        if isTruthy cv then evalStmt fuel st1 envId thenBranch
        else
          match elseBranch with
          | some eb => evalStmt fuel st1 envId eb
          | none => (some (.ok ()), st1)
    | .whileStmt condition body =>
      resBind (evalExpr fuel st envId condition) fun cv st1 =>
        if isTruthy cv then
          resBind (evalStmt fuel st1 envId body) fun _ st2 =>
            evalStmt fuel st2 envId (.whileStmt condition body)
        else (some (.ok ()), st1)
    | .function name params body =>
      let fo : FunctionObject :=
        { name := name, parameters := params, body := body
          closure := envId, objId := st.nextObjId }
      (some (.ok ()),
       { st with
           nextObjId := st.nextObjId + 1
           envs := defineVariable st.envs envId name (.functionObject fo) })
    | .returnStmt e =>
      resBind (match e with
               | some ex => evalExpr fuel st envId ex
               | none => (some (.ok Value.nil), st)) fun v st1 =>
        (some (.error (.ret v)), st1)

/-- Sequential execution of a block's statements, stopping at the first
failure or control-flow signal. -/
def evalStmts : Nat → InterpState → Nat → List Statement → Res Unit × InterpState
  | 0, st, _, _ => (none, st)
  | _ + 1, st, _, [] => (some (.ok ()), st)
  | fuel + 1, st, envId, s :: ss =>
    resBind (evalStmt fuel st envId s) fun _ st1 =>
      evalStmts fuel st1 envId ss
termination_by structural fuel _ _ _ => fuel

end

/-- A fresh interpreter run's state, as the test harness builds it: the
globals store, an empty output buffer, and the host clock's reading. -/
def initState (time : ℚ) : InterpState :=
  { envs := [globalsEnv], output := [], nextObjId := 0, time := time }

/-- Top-level driver loop of the test harness
(`src/rlox_interpreter/tests/source_print_test.rs`): each statement runs
against the same root environment, stopping at the first failure. -/
def runProgram (fuel : Nat) (prog : List Statement) (time : ℚ) :
    Res Unit × InterpState :=
  evalStmts fuel (initState time) 0 prog

/-! ## The arithmetic-and-shadowing scenario program -/

/-- The program `var a=1; var b=2; { var a=3; var b=4; print a+b; }` of the
scenario in §8, as the excluded parser produces it. -/
def shadowingProg : List Statement :=
  [ .variableDecl "a" (some (.literal (.number 1)))
  , .variableDecl "b" (some (.literal (.number 2)))
  , .block
      [ .variableDecl "a" (some (.literal (.number 3)))
      , .variableDecl "b" (some (.literal (.number 4)))
      , .print (.binary (.var "a") .plus (.var "b")) ] ]

/-! ## C1 — unary operators -/

/-- C1, failing input: the source's `Bang` arm returns
`Value::Boolean(Self::is_truthy(&rval))` — the operand's truthiness itself,
not its negation as the specification requires.  `!nil` therefore evaluates
to `Boolean(false)` (the claim requires `Boolean(true)`), `!false` to
`Boolean(false)` (claim: `Boolean(true)`) and `!3` to `Boolean(true)`
(claim: `Boolean(false)`).  The `-`-on-number and unsupported-operand parts
of the claim do hold (last two conjuncts). -/
theorem c1_bang_returns_truthiness :
    (evalExpr 5 (initState 0) 0 (.unary .bang (.literal .nil))).1
      = some (.ok (.boolean false))
    ∧ (evalExpr 5 (initState 0) 0 (.unary .bang (.literal (.boolean false)))).1
      = some (.ok (.boolean false))
    ∧ (evalExpr 5 (initState 0) 0 (.unary .bang (.literal (.number 3)))).1
      = some (.ok (.boolean true))
    ∧ (evalExpr 5 (initState 0) 0 (.unary .minus (.literal (.number 3)))).1
      = some (.ok (.number (-3)))
    ∧ (evalExpr 5 (initState 0) 0 (.unary .minus (.literal (.string "x")))).1
      = some (.error (.unsupportedUnary .minus)) := by
  refine ⟨rfl, rfl, rfl, rfl, rfl⟩

/-! ## C4 — the shadowing scenario's output -/

/-- C4, counterexample: the `Print` arm forwards `format!("{:?}", value)`
to the sink, so the scenario program's single output line is the `Debug`
rendering `Number(7.0)` — not the bare text `7` the claim states.  The
repository's own test (`source_print_test.rs`, `test_source`) asserts
exactly this `Number(7.0)` line. -/
theorem c4_output_is_debug_not_bare :
    (runProgram 20 shadowingProg 0).2.output = ["Number(7.0)"]
    ∧ (runProgram 20 shadowingProg 0).2.output ≠ ["7"] := by
  constructor
  · rfl
  · decide

/-- C4, amended: executing the scenario program sends exactly one line to
the output sink, and that line is `Number(7.0)` (the value 7 in the
interpreter's `Debug` formatting). -/
theorem c4_prints_one_line_number_seven :
    (runProgram 20 shadowingProg 0).1 = some (.ok ())
    ∧ (runProgram 20 shadowingProg 0).2.output = ["Number(7.0)"] := by
  constructor
  · rfl
  · rfl

/-! ## Call-boundary helpers -/

/-- The callee test of the `Call` arm's `if let` chain: only native
functions and function objects are callable. -/
def isCallableValue : Value → Bool
  | .nativeFunction _ => true
  | .functionObject _ => true
  | _ => false

/-- Whether an error is the `ReturnError` control-flow signal (the
`downcast::<ReturnError>` test). -/
def EvalError.isRet : EvalError → Bool
  | .ret _ => true
  | _ => false

/-- The state after `FunctionObject::call` has allocated the fresh child
environment of the closure and bound each parameter to its argument. -/
def paramEnvState (st : InterpState) (f : FunctionObject) (args : List Value) : InterpState :=
  { st with envs := st.envs ++ [{ parent := some f.closure, vars := bindParams f.parameters args }] }

/-! ## C10 — NotCallable is raised only after the arguments ran -/

/-- C10: when the callee evaluates to a non-callable value, the call fails
with the not-callable error, and the failure state is exactly the state
after the left-to-right evaluation of every argument expression — all
argument side effects have already happened. -/
theorem c10_notCallable_after_args
    (fuel : Nat) (st st1 st2 : InterpState) (envId : Nat) (callee : Expr)
    (args : List Expr) (v : Value) (vals : List Value)
    (hc : evalExpr fuel st envId callee = (some (.ok v), st1))
    (ha : evalArgs fuel st1 envId args = (some (.ok vals), st2))
    (hv : isCallableValue v = false) :
    evalExpr (fuel + 1) st envId (.call callee args) =
      (some (.error .notCallable), st2) := by
  simp only [evalExpr, hc, resBind, ha]
  cases v <;> simp_all [isCallableValue]

/-- C10, witness: calling the number literal `3` with an argument whose
evaluation assigns `x := 5`; the not-callable failure reports the store in
which the assignment has already landed. -/
theorem c10_witness :
    evalExpr 5 ⟨[⟨none, [("x", .nil)]⟩], [], 0, 0⟩ 0
        (.call (.literal (.number 3)) [.assign "x" (.literal (.number 5))]) =
      (some (.error .notCallable), ⟨[⟨none, [("x", .number 5)]⟩], [], 0, 0⟩) :=
  c10_notCallable_after_args 4 _ _ _ 0 _ _ (.number 3) [.number 5] (by rfl) (by rfl) (by rfl)

/-! ## C9 — native calls skip the arity check -/

/-- C9: `NativeFunction::call` applies the stored function pointer with no
arity check, so a native call never fails — in particular never with the
arity-mismatch kind — regardless of the argument count.  Lifted to the
`Call` arm: a call whose callee is any native function succeeds with the
host time (the only registered native is `clock`), whatever `vals` is.
`clock` is registered with arity 2 yet succeeds on an empty argument
list. -/
theorem c9_native_call_no_arity_check :
    (∀ (f : NativeFunction) (st : InterpState) (args : List Value),
        callNative f st args = (some (.ok (.number st.time)), st))
    ∧ CLOCK.arity = 2
    ∧ (∀ (fuel : Nat) (st st1 st2 : InterpState) (envId : Nat) (callee : Expr)
         (args : List Expr) (f : NativeFunction) (vals : List Value),
         evalExpr fuel st envId callee = (some (.ok (.nativeFunction f)), st1) →
         evalArgs fuel st1 envId args = (some (.ok vals), st2) →
         evalExpr (fuel + 1) st envId (.call callee args) =
           (some (.ok (.number st2.time)), st2)) := by
  refine ⟨?_, rfl, ?_⟩
  · intro f st args
    cases f with
    | mk name arity tag => cases tag; rfl
  · intro fuel st st1 st2 envId callee args f vals hc ha
    simp only [evalExpr, hc, resBind, ha]
    cases f with
    | mk name arity tag => cases tag; rfl

/-- C9, witness: in a fresh interpreter state, `clock()` — zero arguments
against a declared arity of 2 — succeeds and returns the host time. -/
theorem c9_witness :
    evalExpr 3 (initState 0) 0 (.call (.var "clock") []) =
      (some (.ok (.number 0)), initState 0) :=
  c9_native_call_no_arity_check.2.2 2 (initState 0) (initState 0) (initState 0)
    0 (.var "clock") [] CLOCK [] (by rfl) (by rfl)

/-! ## Unfolding lemmas for the call path -/

/-- Unfolding of the `Call` arm of `evaluate_expr` at positive fuel. -/
theorem evalExpr_call_succ (fuel : Nat) (st : InterpState) (envId : Nat)
    (callee : Expr) (args : List Expr) :
    evalExpr (fuel + 1) st envId (.call callee args) =
      resBind (evalExpr fuel st envId callee) fun callable st1 =>
      resBind (evalArgs fuel st1 envId args) fun argValues st2 =>
        match callable with
        | .nativeFunction f => interceptReturn (callNative f st2 argValues)
        | .functionObject f => interceptReturn (callFunction fuel st2 f argValues)
        | _ => (some (.error .notCallable), st2) := rfl

/-- Unfolding of `FunctionObject::call` at positive fuel. -/
theorem callFunction_succ (fuel : Nat) (st : InterpState) (f : FunctionObject)
    (args : List Value) :
    callFunction (fuel + 1) st f args =
      match compare args.length f.parameters.length with
      | .lt => (some (.error .arityTooFew), st)
      | .gt => (some (.error .arityTooMany), st)
      | .eq =>
        resBind (evalStmt fuel (paramEnvState st f args) st.envs.length f.body)
          fun _ st2 => (some (.ok Value.nil), st2) := rfl

/-- Unfolding of the `Block` arm of `evaluate_stmt` at positive fuel. -/
theorem evalStmt_block_succ (fuel : Nat) (st : InterpState) (envId : Nat)
    (ss : List Statement) :
    evalStmt (fuel + 1) st envId (.block ss) =
      evalStmts fuel { st with envs := st.envs ++ [{ parent := some envId, vars := [] }] }
        st.envs.length ss := rfl

/-! ## C2 — the return signal is intercepted exactly at the call boundary -/

/-- C2: a `return` statement raises the distinguished signal carrying the
evaluated value (`Nil` when the expression is omitted); when the body of an
interpreted function ends in an error `r`, the call expression intercepts
`r` exactly when it is the return signal — the carried value becomes the
call's result — and propagates `r` unchanged when it is any genuine
failure kind. -/
theorem c2_return_caught_at_call_boundary
    (fuel : Nat) (st st1 st2 st3 : InterpState) (envId : Nat) (callee : Expr)
    (args : List Expr) (f : FunctionObject) (vals : List Value) (r : EvalError)
    (hc : evalExpr (fuel + 1) st envId callee = (some (.ok (.functionObject f)), st1))
    (ha : evalArgs (fuel + 1) st1 envId args = (some (.ok vals), st2))
    (hn : vals.length = f.parameters.length)
    (hbody : evalStmt fuel (paramEnvState st2 f vals) st2.envs.length f.body
               = (some (.error r), st3)) :
    (∀ st' envId', evalStmt (fuel + 1) st' envId' (.returnStmt none)
        = (some (.error (.ret Value.nil)), st'))
    ∧ (∀ v, r = .ret v →
        evalExpr (fuel + 2) st envId (.call callee args) = (some (.ok v), st3))
    ∧ (r.isRet = false →
        evalExpr (fuel + 2) st envId (.call callee args) = (some (.error r), st3)) := by
  have hcmp : compare vals.length f.parameters.length = Ordering.eq :=
    Nat.compare_eq_eq.2 hn
  have hmain : evalExpr (fuel + 2) st envId (.call callee args)
      = interceptReturn (some (.error r), st3) := by
    rw [evalExpr_call_succ, hc]
    simp only [resBind]
    rw [ha]
    simp only [resBind]
    rw [callFunction_succ, hcmp]
    simp only [hbody, resBind]
  refine ⟨fun st' envId' => rfl, ?_, ?_⟩
  · intro v hv
    subst hv
    rw [hmain]
    rfl
  · intro hr
    rw [hmain]
    cases r <;> simp_all [interceptReturn, EvalError.isRet]

/-- A function used to witness the return-interception behaviour:
`fun g() { return 42; }`, closing over the root environment. -/
def retFun : FunctionObject :=
  { name := "g", parameters := []
    body := .returnStmt (some (.literal (.number 42)))
    closure := 0, objId := 0 }

/-- A function whose body raises a genuine failure:
`fun h() { nope; }` with `nope` undefined. -/
def failFun : FunctionObject :=
  { name := "h", parameters := []
    body := .expression (.var "nope")
    closure := 0, objId := 1 }

/-- The root store binding `g` and `h` for the C2 witness. -/
def c2Store : InterpState :=
  ⟨[⟨none, [("g", .functionObject retFun), ("h", .functionObject failFun)]⟩], [], 0, 0⟩

/-- C2, witness: calling `g` yields 42 (the return signal converted to the
call's result); calling `h` propagates the undefined-variable failure
unchanged through the call boundary. -/
theorem c2_witness :
    evalExpr 4 c2Store 0 (.call (.var "g") [])
      = (some (.ok (.number 42)), paramEnvState c2Store retFun [])
    ∧ evalExpr 4 c2Store 0 (.call (.var "h") [])
      = (some (.error (.undefinedVariable "nope")), paramEnvState c2Store failFun []) :=
  ⟨(c2_return_caught_at_call_boundary 2 c2Store c2Store c2Store
      (paramEnvState c2Store retFun []) 0 (.var "g") [] retFun [] (.ret (.number 42))
      (by rfl) (by rfl) rfl (by rfl)).2.1 (.number 42) rfl,
   (c2_return_caught_at_call_boundary 2 c2Store c2Store c2Store
      (paramEnvState c2Store failFun []) 0 (.var "h") [] failFun []
      (.undefinedVariable "nope")
      (by rfl) (by rfl) rfl (by rfl)).2.2 rfl⟩

/-! ## C6 — interpreted-function arity checking -/

/-- C6: for a call of an interpreted function with `m` evaluated arguments
against `n` parameters, the call fails with the too-few arity error when
`m < n` and the too-many arity error when `m > n` (both are the
arity-mismatch kind, and the two cases are distinguished); when `m = n`
and the body completes normally, the call's result is `Nil`. -/
theorem c6_arity_mismatch_and_nil_completion
    (fuel : Nat) (st st1 st2 : InterpState) (envId : Nat) (callee : Expr)
    (args : List Expr) (f : FunctionObject) (vals : List Value)
    (hc : evalExpr (fuel + 1) st envId callee = (some (.ok (.functionObject f)), st1))
    (ha : evalArgs (fuel + 1) st1 envId args = (some (.ok vals), st2)) :
    EvalError.arityTooFew.isArityMismatch = true
    ∧ EvalError.arityTooMany.isArityMismatch = true
    ∧ (vals.length < f.parameters.length →
        evalExpr (fuel + 2) st envId (.call callee args)
          = (some (.error .arityTooFew), st2))
    ∧ (f.parameters.length < vals.length →
        evalExpr (fuel + 2) st envId (.call callee args)
          = (some (.error .arityTooMany), st2))
    ∧ (vals.length = f.parameters.length →
        ∀ st3, evalStmt fuel (paramEnvState st2 f vals) st2.envs.length f.body
            = (some (.ok ()), st3) →
          evalExpr (fuel + 2) st envId (.call callee args)
            = (some (.ok Value.nil), st3)) := by
  refine ⟨rfl, rfl, ?_, ?_, ?_⟩
  · intro hlt
    rw [evalExpr_call_succ, hc]
    simp only [resBind]
    rw [ha]
    simp only [resBind]
    rw [callFunction_succ, Nat.compare_eq_lt.2 hlt]
    rfl
  · intro hgt
    rw [evalExpr_call_succ, hc]
    simp only [resBind]
    rw [ha]
    simp only [resBind]
    rw [callFunction_succ, Nat.compare_eq_gt.2 hgt]
    rfl
  · intro hn st3 hbody
    rw [evalExpr_call_succ, hc]
    simp only [resBind]
    rw [ha]
    simp only [resBind]
    rw [callFunction_succ, Nat.compare_eq_eq.2 hn]
    simp only [hbody, resBind]
    rfl

/-- A zero-parameter function with an empty block body, the scenario
function of C6's arity test. -/
def zeroParamFun : FunctionObject :=
  { name := "z", parameters := [], body := .block [], closure := 0, objId := 0 }

/-- The root store binding `z` for the C6 witness. -/
def c6Store : InterpState :=
  ⟨[⟨none, [("z", .functionObject zeroParamFun)]⟩], [], 0, 0⟩

/-- C6, witness: calling the zero-parameter `z` with one argument fails
with the too-many arity error; calling it with zero arguments succeeds
with result `Nil`. -/
theorem c6_witness :
    evalExpr 4 c6Store 0 (.call (.var "z") [.literal (.number 1)])
      = (some (.error .arityTooMany), c6Store)
    ∧ evalExpr 4 c6Store 0 (.call (.var "z") [])
      = (some (.ok Value.nil),
         { c6Store with
             envs := c6Store.envs
               ++ [{ parent := some 0, vars := [] }, { parent := some 1, vars := [] }] }) :=
  ⟨(c6_arity_mismatch_and_nil_completion 2 c6Store c6Store c6Store 0 (.var "z")
      [.literal (.number 1)] zeroParamFun [.number 1] (by rfl) (by rfl)).2.2.2.1
      (by decide),
   (c6_arity_mismatch_and_nil_completion 2 c6Store c6Store c6Store 0 (.var "z")
      [] zeroParamFun [] (by rfl) (by rfl)).2.2.2.2 rfl _ (by rfl)⟩

/-! ## C3 — parameter environment and body block environment -/

/-- The program `fun f() { var y = 1; } f();`. -/
def c3Prog : List Statement :=
  [ .function "f" [] (.block [.variableDecl "y" (some (.literal (.number 1)))])
  , .expression (.call (.var "f") []) ]

/-- C3, counterexample: running `fun f() { var y = 1; } f();` leaves THREE
environments, not the two the claim implies.  The call allocated the
parameter environment (index 1, child of the closure 0) — but the body,
which the parser always wraps in a block statement, then ran under the
`Block` rule, which allocated one more environment (index 2, child of the
parameter environment), and `var y` landed there while the parameter
environment stayed empty.  Under the claim (parameter environment doubles
as the body's block scope) the store would have length 2 and `y` would
live at index 1. -/
theorem c3_counterexample :
    (runProgram 10 c3Prog 0).1 = some (.ok ())
    ∧ (runProgram 10 c3Prog 0).2.envs.length = 3
    ∧ (runProgram 10 c3Prog 0).2.envs.length ≠ 2
    ∧ ((runProgram 10 c3Prog 0).2.envs[1]?).map Environment.vars = some []
    ∧ ((runProgram 10 c3Prog 0).2.envs[2]?).map Environment.parent = some (some 1)
    ∧ ((runProgram 10 c3Prog 0).2.envs[2]?).map
        (fun env => (lookupVar env.vars "y").isSome) = some true := by
  refine ⟨rfl, rfl, by decide, rfl, rfl, rfl⟩

/-- C3, amended: a call with matching arity creates exactly one new child
environment of the function's captured closure and binds each parameter
there; the body — always a block statement, per `parse_function_decl` —
is then evaluated by the block rule, which introduces ONE additional child
environment of the parameter environment, and the body's statements
execute in that grandchild scope (the parameter bindings are one parent
link above the body's block scope). -/
theorem c3_param_env_plus_block_env
    (fuel : Nat) (st : InterpState) (f : FunctionObject) (vals : List Value)
    (ss : List Statement)
    (hn : vals.length = f.parameters.length) (hb : f.body = .block ss) :
    callFunction (fuel + 2) st f vals =
      resBind
        (evalStmts fuel
          { st with envs := st.envs
              ++ [{ parent := some f.closure, vars := bindParams f.parameters vals },
                  { parent := some st.envs.length, vars := [] }] }
          (st.envs.length + 1) ss)
        (fun _ st2 => (some (.ok Value.nil), st2)) := by
  rw [callFunction_succ, Nat.compare_eq_eq.2 hn, hb, evalStmt_block_succ]
  simp [paramEnvState]

/-- C3, witness: instantiating the amended call shape on the concrete
function `fun f() { var y = 1; }` called with no arguments in a one-
environment store. -/
theorem c3_witness :
    callFunction 4 ⟨[⟨none, []⟩], [], 0, 0⟩
        ⟨"f", [], .block [.variableDecl "y" (some (.literal (.number 1)))], 0, 0⟩ [] =
      resBind
        (evalStmts 2
          ⟨[⟨none, []⟩, ⟨some 0, []⟩, ⟨some 1, []⟩], [], 0, 0⟩ 2
          [.variableDecl "y" (some (.literal (.number 1)))])
        (fun _ st2 => (some (.ok Value.nil), st2)) := by
  have h := c3_param_env_plus_block_env 2 ⟨[⟨none, []⟩], [], 0, 0⟩
    ⟨"f", [], .block [.variableDecl "y" (some (.literal (.number 1)))], 0, 0⟩ []
    [.variableDecl "y" (some (.literal (.number 1)))] rfl rfl
  exact h

/-! ## C5 — assignment targets the nearest defining environment -/

theorem lookupVar_insertVar_self (l : List (String × Value)) (name : String) (v : Value) :
    lookupVar (insertVar l name v) name = some v := by
  induction l with
  | nil => simp [insertVar, lookupVar]
  | cons kv rest ih =>
    by_cases h : kv.1 = name
    · simp [insertVar, lookupVar, h]
    · simp [insertVar, lookupVar, h, ih]

theorem lookupVar_insertVar_ne (l : List (String × Value)) (name nm : String) (v : Value)
    (h : nm ≠ name) : lookupVar (insertVar l name v) nm = lookupVar l nm := by
  induction l with
  | nil => simp [insertVar, lookupVar, Ne.symm h]
  | cons kv rest ih =>
    by_cases hk : kv.1 = name
    · have hkn : kv.1 ≠ nm := by rw [hk]; exact Ne.symm h
      simp [insertVar, lookupVar, hk, hkn, Ne.symm h]
    · simp [insertVar, lookupVar, hk, ih]

theorem lookupVar_insertVar_isSome (l : List (String × Value)) (name : String) (v : Value)
    (h : (lookupVar l name).isSome = true) (nm : String) :
    (lookupVar (insertVar l name v) nm).isSome = (lookupVar l nm).isSome := by
  by_cases hn : nm = name
  · subst hn
    rw [lookupVar_insertVar_self, h]
    rfl
  · rw [lookupVar_insertVar_ne l name nm v hn]

theorem defineVariable_of_mem (s : Store) (j : Nat) (name : String) (v : Value)
    (env : Environment) (h : s[j]? = some env) :
    defineVariable s j name v = s.set j { env with vars := insertVar env.vars name v } := by
  simp [defineVariable, updateEnv, h]

theorem nearestDefAux_of_some (bound : Nat) :
    ∀ (s : Store) (id : Nat) (name : String) (j : Nat),
      nearestDefAux bound s id name = some j →
      ∃ env, s[j]? = some env ∧ (lookupVar env.vars name).isSome = true := by
  induction bound with
  | zero => intro s id name j h; simp [nearestDefAux] at h
  | succ bound ih =>
    intro s id name j h
    cases heq : s[id]? with
    | none => simp [nearestDefAux, heq] at h
    | some env =>
      simp only [nearestDefAux, heq] at h
      by_cases hs : (lookupVar env.vars name).isSome
      · simp only [hs, if_true] at h
        cases h
        exact ⟨env, heq, hs⟩
      · simp only [hs, Bool.false_eq_true, if_false] at h
        cases hp : env.parent with
        | none => simp [hp] at h
        | some p =>
          simp only [hp] at h
          by_cases hlt : p < id
          · rw [if_pos hlt] at h
            exact ih s p name j h
          · rw [if_neg hlt] at h
            simp at h

theorem assignVarAux_of_nearest_some (bound : Nat) :
    ∀ (s : Store) (id : Nat) (name : String) (v : Value) (j : Nat),
      nearestDefAux bound s id name = some j →
      assignVarAux bound s id name v = .ok (defineVariable s j name v) := by
  induction bound with
  | zero => intro s id name v j h; simp [nearestDefAux] at h
  | succ bound ih =>
    intro s id name v j h
    cases heq : s[id]? with
    | none => simp [nearestDefAux, heq] at h
    | some env =>
      simp only [nearestDefAux, heq] at h
      simp only [assignVarAux, heq]
      by_cases hs : (lookupVar env.vars name).isSome
      · simp only [hs, if_true] at h
        cases h
        simp [hs]
      · simp only [hs, Bool.false_eq_true, if_false] at h ⊢
        cases hp : env.parent with
        | none => simp [hp] at h
        | some p =>
          simp only [hp] at h
          by_cases hlt : p < id
          · rw [if_pos hlt] at h
            simp [hlt, ih s p name v j h]
          · rw [if_neg hlt] at h
            simp at h

theorem assignVarAux_of_nearest_none (bound : Nat) :
    ∀ (s : Store) (id : Nat) (name : String) (v : Value),
      nearestDefAux bound s id name = none →
      assignVarAux bound s id name v = .error (.undefinedVariable name) := by
  induction bound with
  | zero => intro s id name v _; simp [assignVarAux]
  | succ bound ih =>
    intro s id name v h
    cases heq : s[id]? with
    | none => simp [assignVarAux, heq]
    | some env =>
      simp only [nearestDefAux, heq] at h
      simp only [assignVarAux, heq]
      by_cases hs : (lookupVar env.vars name).isSome
      · simp [hs] at h
      · simp only [hs, Bool.false_eq_true, if_false] at h ⊢
        cases hp : env.parent with
        | none => simp [hp]
        | some p =>
          simp only [hp] at h
          simp only [hp]
          by_cases hlt : p < id
          · rw [if_pos hlt] at h
            simp [hlt, ih s p name v h]
          · rw [if_neg hlt]

theorem getVarAux_of_nearest_some (bound : Nat) :
    ∀ (s : Store) (id : Nat) (name : String) (j : Nat) (env : Environment) (v : Value),
      nearestDefAux bound s id name = some j →
      s[j]? = some env → lookupVar env.vars name = some v →
      getVarAux bound s id name = .ok v := by
  induction bound with
  | zero => intro s id name j env v h _ _; simp [nearestDefAux] at h
  | succ bound ih =>
    intro s id name j env v h henv hval
    cases heq : s[id]? with
    | none => simp [nearestDefAux, heq] at h
    | some env' =>
      simp only [nearestDefAux, heq] at h
      simp only [getVarAux, heq]
      by_cases hs : (lookupVar env'.vars name).isSome
      · simp only [hs, if_true] at h
        cases h
        rw [heq] at henv
        cases henv
        rw [hval]
      · have hnone : lookupVar env'.vars name = none := by
          cases hl : lookupVar env'.vars name with
          | none => rfl
          | some w => rw [hl] at hs; simp at hs
        rw [hnone]
        simp only [hs, Bool.false_eq_true, if_false] at h
        cases hp : env'.parent with
        | none => simp [hp] at h
        | some p =>
          simp only [hp] at h
          by_cases hlt : p < id
          · rw [if_pos hlt] at h
            simp [hlt, ih s p name j env v h henv hval]
          · rw [if_neg hlt] at h
            simp at h

/-- Two stores look the same to the chain walk for `name` when every slot
agrees on parent pointer and on whether `name` is bound there. -/
def sameShapeFor (name : String) (s s' : Store) : Prop :=
  ∀ k : Nat, (s[k]?).map Environment.parent = (s'[k]?).map Environment.parent
    ∧ (s[k]?).map (fun e => (lookupVar e.vars name).isSome)
        = (s'[k]?).map (fun e => (lookupVar e.vars name).isSome)

theorem nearestDefAux_congr (name : String) (s s' : Store) (h : sameShapeFor name s s') :
    ∀ (bound : Nat) (id : Nat),
      nearestDefAux bound s id name = nearestDefAux bound s' id name := by
  intro bound
  induction bound with
  | zero => intro id; rfl
  | succ bound ih =>
    intro id
    obtain ⟨hpar, hsome⟩ := h id
    cases heq : s[id]? with
    | none =>
      cases heq' : s'[id]? with
      | none => simp [nearestDefAux, heq, heq']
      | some env' => rw [heq, heq'] at hpar; simp at hpar
    | some env =>
      cases heq' : s'[id]? with
      | none => rw [heq, heq'] at hpar; simp at hpar
      | some env' =>
        rw [heq, heq'] at hpar hsome
        simp only [Option.map_some'] at hpar hsome
        simp only [Option.some.injEq] at hpar hsome
        simp only [nearestDefAux, heq, heq']
        rw [hsome, hpar]
        by_cases hs : (lookupVar env'.vars name).isSome
        · simp [hs]
        · simp only [hs, Bool.false_eq_true, if_false]
          cases hp : env'.parent with
          | none => rfl
          | some p =>
            by_cases hlt : p < id
            · simp [hlt, ih p]
            · simp [hlt]

theorem sameShapeFor_defineVariable (s : Store) (j : Nat) (name : String) (v : Value)
    (env : Environment) (henv : s[j]? = some env)
    (hsome : (lookupVar env.vars name).isSome = true) :
    sameShapeFor name s (s.set j { env with vars := insertVar env.vars name v }) := by
  have hlt : j < s.length := by
    by_contra hge
    rw [List.getElem?_eq_none (Nat.le_of_not_lt hge)] at henv
    exact Option.noConfusion henv
  intro k
  by_cases hk : k = j
  · subst hk
    rw [henv, List.getElem?_set_self hlt]
    refine ⟨rfl, ?_⟩
    simp [lookupVar_insertVar_isSome _ _ _ hsome]
  · rw [List.getElem?_set_ne (Ne.symm hk)]
    exact ⟨rfl, rfl⟩

/-- C5: `assign_variable` overwrites the binding in the nearest enclosing
environment (from `id` up the parent chain) that already defines the name
— the store keeps its length, every other slot is untouched, the target
environment keeps its parent and its key set (no binding is created) —
and the new value is afterwards read by `get_variable` from every
environment whose chain resolves the name to that same ancestor; the
assignment fails with the undefined-variable error exactly when no
environment in the chain defines the name. -/
theorem c5_assign_overwrites_nearest (s : Store) (id : Nat) (name : String) (v : Value) :
    (∀ j, nearestDefining s id name = some j →
       ∃ env, s[j]? = some env ∧ (lookupVar env.vars name).isSome = true
         ∧ assignVariable s id name v
             = .ok (s.set j { env with vars := insertVar env.vars name v })
         ∧ (s.set j { env with vars := insertVar env.vars name v }).length = s.length
         ∧ (∀ k, k ≠ j →
              (s.set j { env with vars := insertVar env.vars name v })[k]? = s[k]?)
         ∧ (∀ nm, (lookupVar (insertVar env.vars name v) nm).isSome
              = (lookupVar env.vars nm).isSome)
         ∧ (∀ id2, nearestDefining s id2 name = some j →
              getVariable (s.set j { env with vars := insertVar env.vars name v }) id2 name
                = .ok v))
    ∧ (nearestDefining s id name = none →
        assignVariable s id name v = .error (.undefinedVariable name)) := by
  constructor
  · intro j hj
    obtain ⟨env, henv, hsome⟩ := nearestDefAux_of_some (id + 1) s id name j hj
    have hlt : j < s.length := by
      by_contra hge
      rw [List.getElem?_eq_none (Nat.le_of_not_lt hge)] at henv
      exact Option.noConfusion henv
    refine ⟨env, henv, hsome, ?_, List.length_set s j _,
      fun k hk => List.getElem?_set_ne (Ne.symm hk),
      fun nm => lookupVar_insertVar_isSome _ _ _ hsome nm, ?_⟩
    · have ha := assignVarAux_of_nearest_some (id + 1) s id name v j hj
      rw [defineVariable_of_mem s j name v env henv] at ha
      exact ha
    · intro id2 hid2
      have hshape := sameShapeFor_defineVariable s j name v env henv hsome
      have hnear' : nearestDefAux (id2 + 1)
          (s.set j { env with vars := insertVar env.vars name v }) id2 name = some j := by
        rw [← nearestDefAux_congr name s _ hshape (id2 + 1) id2]
        exact hid2
      exact getVarAux_of_nearest_some (id2 + 1) _ id2 name j _ v hnear'
        (List.getElem?_set_self hlt) (lookupVar_insertVar_self env.vars name v)
  · intro h
    exact assignVarAux_of_nearest_none (id + 1) s id name v h

/-- C5, witness: in the chain `root {x ↦ 1} ← child {}`, assigning `x := 9`
from the child mutates the root binding (no new binding in the child), the
update is visible via `get_variable` from the child, and assigning the
unbound name `zz` fails with the undefined-variable error. -/
theorem c5_witness :
    assignVariable [⟨none, [("x", .number 1)]⟩, ⟨some 0, []⟩] 1 "x" (.number 9)
      = .ok [⟨none, [("x", .number 9)]⟩, ⟨some 0, []⟩]
    ∧ getVariable [⟨none, [("x", .number 9)]⟩, ⟨some 0, []⟩] 1 "x" = .ok (.number 9)
    ∧ assignVariable [⟨none, [("x", .number 1)]⟩, ⟨some 0, []⟩] 1 "zz" (.number 9)
      = .error (.undefinedVariable "zz") := by
  have h := (c5_assign_overwrites_nearest
    [⟨none, [("x", .number 1)]⟩, ⟨some 0, []⟩] 1 "x" (.number 9)).1 0 (by rfl)
  obtain ⟨env, henv, _, hassign, _, _, _, hobs⟩ := h
  simp only [List.getElem?_cons_zero, Option.some.injEq] at henv
  subst henv
  refine ⟨hassign, hobs 1 (by rfl), ?_⟩
  exact (c5_assign_overwrites_nearest
    [⟨none, [("x", .number 1)]⟩, ⟨some 0, []⟩] 1 "zz" (.number 9)).2 (by rfl)

/-! ## C8 — idempotence of pure expressions -/

mutual

/-- Whether an expression syntactically contains an assignment — the
claim's side condition.  A `print` cannot occur inside an expression
(print is a statement form), so "no assignment and no print" is exactly
this predicate being false. -/
def exprHasAssign : Expr → Bool
  | .binary l _ r => exprHasAssign l || exprHasAssign r
  | .grouping e => exprHasAssign e
  | .literal _ => false
  | .unary _ r => exprHasAssign r
  | .var _ => false
  | .assign _ _ => true
  | .logical l _ r => exprHasAssign l || exprHasAssign r
  | .call c args => exprHasAssign c || exprListHasAssign args

/-- List version of `exprHasAssign` for call arguments. -/
def exprListHasAssign : List Expr → Bool
  | [] => false
  | e :: es => exprHasAssign e || exprListHasAssign es

end

/-- The amended side condition: no assignment and additionally no call
anywhere in the expression (a call may run arbitrary side-effecting code
— function bodies that assign, or the non-deterministic `clock`
native). -/
def pureExpr : Expr → Bool
  | .binary l _ r => pureExpr l && pureExpr r
  | .grouping e => pureExpr e
  | .literal _ => true
  | .unary _ r => pureExpr r
  | .var _ => true
  | .assign _ _ => false
  | .logical l _ r => pureExpr l && pureExpr r
  | .call _ _ => false

/-- The closure `fun f() { return n = n + 1; }` over the root scope. -/
def c8Fun : FunctionObject :=
  { name := "f", parameters := []
    body := .returnStmt (some (.assign "n" (.binary (.var "n") .plus (.literal (.number 1)))))
    closure := 0, objId := 0 }

/-- Root store with `n = 0` and `f` bound. -/
def c8Store : InterpState :=
  ⟨[⟨none, [("n", .number 0), ("f", .functionObject c8Fun)]⟩], [], 0, 0⟩

/-- The expression `f()` — it contains no assignment (and no print), yet
its evaluation mutates `n` through the function body. -/
def c8Expr : Expr := .call (.var "f") []

/-- C8, counterexample: `f()` satisfies the claim's "no assignment and no
print" side condition, the environment is not touched between the two
evaluations, yet the first evaluation yields 1 and the second yields 2 —
the call's body assigned `n` during the first evaluation. -/
theorem c8_counterexample :
    exprHasAssign c8Expr = false
    ∧ (evalExpr 10 c8Store 0 c8Expr).1 = some (.ok (.number 1))
    ∧ (evalExpr 10 (evalExpr 10 c8Store 0 c8Expr).2 0 c8Expr).1 = some (.ok (.number 2))
    ∧ (some (Except.ok (Value.number 1)) : Res Value) ≠ some (Except.ok (Value.number 2)) := by
  refine ⟨rfl, rfl, rfl, ?_⟩
  intro h
  have h1 : (Value.number 1) = (Value.number 2) := by
    injection (Option.some.inj h)
  have h2 : (1 : ℚ) = 2 := by injection h1
  norm_num at h2

/-- Evaluation of a call-free, assignment-free expression never changes
the interpreter state. -/
theorem evalExpr_pure_state :
    ∀ (fuel : Nat) (e : Expr), pureExpr e = true →
      ∀ (st : InterpState) (envId : Nat), (evalExpr fuel st envId e).2 = st := by
  intro fuel
  induction fuel with
  | zero => intro e hp st envId; rfl
  | succ fuel ih =>
    intro e hp st envId
    cases e with
    | binary l op r =>
      rw [pureExpr, Bool.and_eq_true] at hp
      show (resBind (evalExpr fuel st envId l) _).2 = st
      cases h1 : evalExpr fuel st envId l with
      | mk r1 st1 =>
        have hst1 : st1 = st := by
          have := ih l hp.1 st envId
          rw [h1] at this
          exact this
        subst st1
        cases r1 with
        | none => rfl
        | some x =>
          cases x with
          | error e1 => rfl
          | ok lv =>
            show (resBind (evalExpr fuel st envId r) _).2 = st
            cases h2 : evalExpr fuel st envId r with
            | mk r2 st2 =>
              have hst2 : st2 = st := by
                have := ih r hp.2 st envId
                rw [h2] at this
                exact this
              subst st2
              cases r2 with
              | none => rfl
              | some x =>
                cases x with
                | error e2 => rfl
                | ok rv => rfl
    | grouping inner => exact ih inner hp st envId
    | literal l => rfl
    | unary op r =>
      show (resBind (evalExpr fuel st envId r) _).2 = st
      cases h1 : evalExpr fuel st envId r with
      | mk r1 st1 =>
        have hst1 : st1 = st := by
          have := ih r hp st envId
          rw [h1] at this
          exact this
        subst st1
        cases r1 with
        | none => rfl
        | some x => cases x <;> rfl
    | var name => rfl
    | assign name value => simp [pureExpr] at hp
    | logical l op r =>
      rw [pureExpr, Bool.and_eq_true] at hp
      show (resBind (evalExpr fuel st envId l) _).2 = st
      cases h1 : evalExpr fuel st envId l with
      | mk r1 st1 =>
        have hst1 : st1 = st := by
          have := ih l hp.1 st envId
          rw [h1] at this
          exact this
        subst st1
        cases r1 with
        | none => rfl
        | some x =>
          cases x with
          | error e1 => rfl
          | ok lv =>
            have hr : (evalExpr fuel st envId r).2 = st := ih r hp.2 st envId
            cases op <;>
              first
                | exact hr
                | (show (if isTruthy lv = true then (some (Except.ok lv), st)
                      else evalExpr fuel st envId r).2 = st
                   split
                   · rfl
                   · exact hr)
                | (show (if (!isTruthy lv) = true then (some (Except.ok lv), st)
                      else evalExpr fuel st envId r).2 = st
                   split
                   · rfl
                   · exact hr)
    | call callee args => simp [pureExpr] at hp

/-- C8, amended: an expression containing no assignment, no print and no
call leaves the interpreter state (environments, output, allocation
counter, clock) unchanged, so evaluating it twice in succession with the
environment unmodified in between yields identical results both times. -/
theorem c8_pure_expr_idempotent (e : Expr) (hp : pureExpr e = true)
    (fuel : Nat) (st : InterpState) (envId : Nat) :
    (evalExpr fuel st envId e).2 = st
    ∧ evalExpr fuel (evalExpr fuel st envId e).2 envId e = evalExpr fuel st envId e := by
  have h := evalExpr_pure_state fuel e hp st envId
  exact ⟨h, by rw [h]⟩

/-- C8, witness: evaluating `x + 1` twice over `x = 2` gives the same
result both times and leaves the state alone. -/
theorem c8_witness :
    ((evalExpr 5 ⟨[⟨none, [("x", .number 2)]⟩], [], 0, 0⟩ 0
        (.binary (.var "x") .plus (.literal (.number 1)))).2
      = ⟨[⟨none, [("x", .number 2)]⟩], [], 0, 0⟩)
    ∧ evalExpr 5 (evalExpr 5 ⟨[⟨none, [("x", .number 2)]⟩], [], 0, 0⟩ 0
        (.binary (.var "x") .plus (.literal (.number 1)))).2 0
        (.binary (.var "x") .plus (.literal (.number 1)))
      = evalExpr 5 ⟨[⟨none, [("x", .number 2)]⟩], [], 0, 0⟩ 0
          (.binary (.var "x") .plus (.literal (.number 1))) :=
  c8_pure_expr_idempotent (.binary (.var "x") .plus (.literal (.number 1))) (by rfl)
    5 ⟨[⟨none, [("x", .number 2)]⟩], [], 0, 0⟩ 0

/-! ## C7 — resolved-distance lookup agrees with dynamic lookup -/

/-- Variable states tracked by the resolver
(`src/rlox_interpreter/src/resolver.rs`). -/
inductive VariableState where
  | declared
  | initialized
  deriving DecidableEq, Repr

/-- One static scope's name→state mapping (the `variables` map of
`Scope`). -/
abbrev ScopeFrame := List (String × VariableState)

/-- Lookup in a scope frame, `HashMap::get` on `Scope::variables`. -/
def lookupState : ScopeFrame → String → Option VariableState
  | [], _ => none
  | (k, v) :: rest, name => if k = name then some v else lookupState rest name

/-- `Scope::resolve` from `src/rlox_interpreter/src/resolver.rs`, with the
parent-linked scope structure rendered as the list of frames from the
innermost scope outward: distance 0 when the own frame holds the name
`Initialized`, otherwise one more than the parent's resolution; `none`
when no scope resolves it.  `Resolver::resolve_expression` stores exactly
this value in a variable or assignment node's `resolution` field. -/
def scopeResolve : List ScopeFrame → String → Option Nat
  | [], _ => none
  | fr :: rest, name =>
    match lookupState fr name with
    | some .initialized => some 0
    | _ => (scopeResolve rest name).map (· + 1)

/-- Modelled from the spec: the resolved-distance variable lookup of the
distance-consuming evaluator (`rlox_interpreter/src/interpreter.rs` is
declared in that crate's `lib.rs` but its source is not in the
repository snapshot).  Per §2, the evaluator "uses that depth to walk
exactly that many parent links instead of doing unbounded linear search":
walk exactly `d` parent links from the current environment, then read
that environment's own mapping only.  The `p < id` guard is the same
store-model artifact as in `getVarAux` and never fires on interpreter
stores. -/
def getVariableAt (s : Store) (id : Nat) (d : Nat) (name : String) :
    Except EvalError Value :=
  match d with
  | 0 =>
    match s[id]? with
    | some env =>
      match lookupVar env.vars name with
      | some v => .ok v
      | none => .error (.undefinedVariable name)
    | none => .error (.undefinedVariable name)
  | d + 1 =>
    match s[id]? with
    | some env =>
      match env.parent with
      | some p =>
        if p < id then getVariableAt s p d name
        else .error (.undefinedVariable name)
      | none => .error (.undefinedVariable name)
    | none => .error (.undefinedVariable name)

/-- The environments along the parent chain from `id` (innermost first),
with the same structural bound as `getVarAux`. -/
def envChainAux : Nat → Store → Nat → List Environment
  | 0, _, _ => []
  | bound + 1, s, id =>
    match s[id]? with
    | none => []
    | some env =>
      env :: (match env.parent with
              | some p => if p < id then envChainAux bound s p else []
              | none => [])

/-- The environments along the parent chain from `id`. -/
def envChain (s : Store) (id : Nat) : List Environment :=
  envChainAux (id + 1) s id

/-- Dynamic name search over an explicit chain (the linear search of
`get_variable` flattened onto the chain list). -/
def chainGet : List Environment → String → Except EvalError Value
  | [], name => .error (.undefinedVariable name)
  | env :: rest, name =>
    match lookupVar env.vars name with
    | some v => .ok v
    | none => chainGet rest name

/-- Distance-indexed read over an explicit chain (the resolved-distance
walk flattened onto the chain list). -/
def chainAt : List Environment → Nat → String → Except EvalError Value
  | [], _, name => .error (.undefinedVariable name)
  | env :: _, 0, name =>
    match lookupVar env.vars name with
    | some v => .ok v
    | none => .error (.undefinedVariable name)
  | _ :: rest, d + 1, name => chainAt rest d name

/-- A static frame chain matches a dynamic environment chain for `name`
when they have the same depth and, at every depth, the frame holds the
name `Initialized` exactly when the environment's own mapping binds it. -/
def framesMatchEnvs (name : String) (frames : List ScopeFrame)
    (envs : List Environment) : Bool :=
  (frames.length == envs.length) &&
  (List.range frames.length).all fun k =>
    decide (lookupState (frames.getD k []) name = some .initialized)
      == (lookupVar (envs.getD k ⟨none, []⟩).vars name).isSome

theorem envChainAux_bound_irrel :
    ∀ (b b' : Nat) (s : Store) (id : Nat), id < b → id < b' →
      envChainAux b s id = envChainAux b' s id := by
  intro b
  induction b with
  | zero => intro b' s id h; omega
  | succ b ih =>
    intro b' s id hb hb'
    cases b' with
    | zero => omega
    | succ b' =>
      cases heq : s[id]? with
      | none => simp [envChainAux, heq]
      | some env =>
        simp only [envChainAux, heq]
        cases hp : env.parent with
        | none => rfl
        | some p =>
          by_cases hlt : p < id
          · simp only [hlt, if_true]
            rw [ih b' s p (by omega) (by omega)]
          · simp [hlt]

theorem getVarAux_eq_chainGet :
    ∀ (bound : Nat) (s : Store) (id : Nat) (name : String),
      getVarAux bound s id name = chainGet (envChainAux bound s id) name := by
  intro bound
  induction bound with
  | zero => intro s id name; rfl
  | succ bound ih =>
    intro s id name
    cases heq : s[id]? with
    | none => simp [getVarAux, envChainAux, heq, chainGet]
    | some env =>
      simp only [getVarAux, envChainAux, heq]
      cases hl : lookupVar env.vars name with
      | some v => simp [chainGet, hl]
      | none =>
        simp only [chainGet, hl]
        cases hp : env.parent with
        | none => rfl
        | some p =>
          by_cases hlt : p < id
          · simp only [hlt, if_true]
            exact ih s p name
          · simp [hlt, chainGet]

theorem getVariableAt_eq_chainAt (name : String) :
    ∀ (d : Nat) (s : Store) (id : Nat),
      getVariableAt s id d name = chainAt (envChain s id) d name := by
  intro d
  induction d with
  | zero =>
    intro s id
    cases heq : s[id]? with
    | none => simp [getVariableAt, envChain, envChainAux, heq, chainAt]
    | some env =>
      simp only [getVariableAt, envChain, envChainAux, heq]
      cases hl : lookupVar env.vars name with
      | some v => simp [chainAt, hl]
      | none => simp [chainAt, hl]
  | succ d ih =>
    intro s id
    cases heq : s[id]? with
    | none => simp [getVariableAt, envChain, envChainAux, heq, chainAt]
    | some env =>
      simp only [getVariableAt, envChain, envChainAux, heq]
      cases hp : env.parent with
      | none => rfl
      | some p =>
        by_cases hlt : p < id
        · simp only [hlt, if_true]
          rw [ih s p]
          show chainAt (envChain s p) d name = chainAt (envChainAux id s p) d name
          rw [envChain, envChainAux_bound_irrel (p + 1) id s p (by omega) hlt]
        · simp [hlt, chainAt]

theorem scopeResolve_spec :
    ∀ (frames : List ScopeFrame) (name : String) (d : Nat),
      scopeResolve frames name = some d →
      d < frames.length
      ∧ lookupState (frames.getD d []) name = some .initialized
      ∧ ∀ k, k < d → ¬ lookupState (frames.getD k []) name = some .initialized := by
  intro frames
  induction frames with
  | nil => intro name d h; simp [scopeResolve] at h
  | cons fr rest ih =>
    intro name d h
    simp only [scopeResolve] at h
    cases hl : lookupState fr name with
    | some stv =>
      cases stv with
      | initialized =>
        rw [hl] at h
        simp only [Option.some.injEq] at h
        subst h
        exact ⟨by simp, by simpa using hl, fun k hk => absurd hk (by omega)⟩
      | declared =>
        rw [hl] at h
        simp only [Option.map_eq_some'] at h
        obtain ⟨d', hd', rfl⟩ := h
        obtain ⟨h1, h2, h3⟩ := ih name d' hd'
        refine ⟨by simpa using h1, by simpa using h2, ?_⟩
        intro k hk
        cases k with
        | zero => simp [hl]
        | succ k => simpa using h3 k (by omega)
    | none =>
      rw [hl] at h
      simp only [Option.map_eq_some'] at h
      obtain ⟨d', hd', rfl⟩ := h
      obtain ⟨h1, h2, h3⟩ := ih name d' hd'
      refine ⟨by simpa using h1, by simpa using h2, ?_⟩
      intro k hk
      cases k with
      | zero => simp [hl]
      | succ k => simpa using h3 k (by omega)

theorem chainGet_eq_chainAt (name : String) :
    ∀ (es : List Environment) (d : Nat),
      d < es.length →
      (lookupVar (es.getD d ⟨none, []⟩).vars name).isSome = true →
      (∀ k, k < d → (lookupVar (es.getD k ⟨none, []⟩).vars name).isSome = false) →
      chainGet es name = chainAt es d name ∧ ∃ v, chainAt es d name = .ok v := by
  intro es
  induction es with
  | nil => intro d hd; simp at hd
  | cons env rest ih =>
    intro d hd hsome hnone
    cases d with
    | zero =>
      simp only [List.getD_cons_zero] at hsome
      cases hl : lookupVar env.vars name with
      | none => rw [hl] at hsome; simp at hsome
      | some v => exact ⟨by simp [chainGet, chainAt, hl], v, by simp [chainAt, hl]⟩
    | succ d =>
      have h0 : (lookupVar env.vars name).isSome = false := by
        simpa using hnone 0 (by omega)
      have hl0 : lookupVar env.vars name = none := by
        cases hl : lookupVar env.vars name with
        | none => rfl
        | some w => rw [hl] at h0; simp at h0
      have hrest := ih d (by simpa using hd) (by simpa using hsome)
        (fun k hk => by simpa using hnone (k + 1) (by omega))
      exact ⟨by simp [chainGet, chainAt, hl0, hrest.1], hrest.2⟩

theorem framesMatchEnvs_spec (name : String) (frames : List ScopeFrame)
    (envs : List Environment) (hm : framesMatchEnvs name frames envs = true) :
    frames.length = envs.length
    ∧ ∀ k, k < frames.length →
        ((lookupState (frames.getD k []) name = some .initialized) ↔
         (lookupVar (envs.getD k ⟨none, []⟩).vars name).isSome = true) := by
  rw [framesMatchEnvs, Bool.and_eq_true] at hm
  obtain ⟨hlen, hall⟩ := hm
  refine ⟨by rwa [beq_iff_eq] at hlen, ?_⟩
  intro k hk
  rw [List.all_eq_true] at hall
  have := hall k (by simpa using hk)
  rw [beq_iff_eq] at this
  constructor
  · intro h
    rw [← this]
    exact decide_eq_true h
  · intro h
    have hd := this.trans h
    exact of_decide_eq_true hd

/-- The function object `showA` of the ignored repository test
`test_capturing_using_static_scope`: `fun showA() { print a; }`, closing
over the block environment. -/
def showAFun : FunctionObject :=
  { name := "showA", parameters := [], body := .block [.print (.var "a")]
    closure := 1, objId := 0 }

/-- The dynamic environment chain at `print a;` during the second
`showA()` call of the `test_capturing_using_static_scope` scenario, after
`var a = "block"` has executed: body block env (3) → parameter env (2) →
block env with the later `a` shadow (1) → global env (0). -/
def c7Store : Store :=
  [ ⟨none, [("a", .string "global")]⟩
  , ⟨some 0, [("showA", .functionObject showAFun), ("a", .string "block")]⟩
  , ⟨some 1, []⟩
  , ⟨some 2, []⟩ ]

/-- C7, counterexample: on the repository's own
`test_capturing_using_static_scope` shape the two lookup modes disagree,
so the claim's unconditional "both modes yield the same value for a tree
annotated by the resolver" is false.  When the resolver annotates
`print a;` inside `showA`, the block scope does not yet hold `a` (the
`var a = "block"` declaration comes later), so `Scope::resolve` assigns
distance 3 — the value the repository's `test_static_scope` asserts.  At
the second call, after `var a = "block"` executed, walking exactly 3
parent links reads the global `"global"`, while the dynamic name search
finds the block's shadow `"block"` two links up: the resolver-annotated
distance and the fallback search return different values. -/
theorem c7_counterexample :
    scopeResolve [[], [], [("showA", .initialized)], [("a", .initialized)]] "a" = some 3
    ∧ getVariableAt c7Store 3 3 "a" = .ok (.string "global")
    ∧ getVariable c7Store 3 "a" = .ok (.string "block")
    ∧ (Except.ok (Value.string "global") : Except EvalError Value)
        ≠ .ok (.string "block") := by
  refine ⟨rfl, rfl, rfl, ?_⟩
  intro h
  have h1 : Value.string "global" = Value.string "block" := by injection h
  have h2 : "global" = "block" := by injection h1
  exact absurd h2 (by decide)

/-- C7, amended: the two lookup modes agree on exactly those
resolver-annotated references whose dynamic environment chain still
matches the static scope chain the resolver saw.  If `Scope::resolve`
computes distance `d` for `name` from a static scope chain, and that
chain matches the dynamic environment chain of the evaluation (same
depth, `name` initialized in a frame exactly when the corresponding
environment binds it), then the spec-modelled distance walk
`getVariableAt` — exactly `d` parent links, then the own mapping —
returns the same value as the dynamic search `get_variable` (the
fallback mode used when no resolution information is present), and both
succeed.  When a later declaration changes an intermediate environment's
bindings after annotation, the match fails and the modes may disagree,
as the counterexample above shows. -/
theorem c7_resolver_distance_agrees
    (s : Store) (id : Nat) (name : String) (frames : List ScopeFrame) (d : Nat)
    (hres : scopeResolve frames name = some d)
    (hm : framesMatchEnvs name frames (envChain s id) = true) :
    getVariableAt s id d name = getVariable s id name
    ∧ ∃ v, getVariableAt s id d name = .ok v ∧ getVariable s id name = .ok v := by
  obtain ⟨hlen, hiff⟩ := framesMatchEnvs_spec name frames (envChain s id) hm
  obtain ⟨hd, hinit, hnot⟩ := scopeResolve_spec frames name d hres
  have hd' : d < (envChain s id).length := hlen ▸ hd
  have hsome : (lookupVar ((envChain s id).getD d ⟨none, []⟩).vars name).isSome = true :=
    (hiff d hd).1 hinit
  have hnone : ∀ k, k < d →
      (lookupVar ((envChain s id).getD k ⟨none, []⟩).vars name).isSome = false := by
    intro k hk
    have hk' : k < frames.length := by omega
    by_contra hne
    rw [Bool.not_eq_false] at hne
    exact hnot k hk ((hiff k hk').2 hne)
  obtain ⟨heq, v, hv⟩ := chainGet_eq_chainAt name (envChain s id) d hd' hsome hnone
  have h1 : getVariableAt s id d name = chainAt (envChain s id) d name :=
    getVariableAt_eq_chainAt name d s id
  have h2 : getVariable s id name = chainGet (envChain s id) name :=
    getVarAux_eq_chainGet (id + 1) s id name
  refine ⟨by rw [h1, h2, heq], v, by rw [h1]; exact hv, by rw [h2, heq]; exact hv⟩

/-- C7, witness: the static chain `[inner {}, outer {x: Initialized}]`
resolves `x` at distance 1; over the matching dynamic chain
`child {} → root {x ↦ 5}`, walking exactly one parent link reads the same
value 5 the dynamic search finds. -/
theorem c7_witness :
    getVariableAt [⟨none, [("x", .number 5)]⟩, ⟨some 0, []⟩] 1 1 "x"
      = getVariable [⟨none, [("x", .number 5)]⟩, ⟨some 0, []⟩] 1 "x" :=
  (c7_resolver_distance_agrees [⟨none, [("x", .number 5)]⟩, ⟨some 0, []⟩] 1 "x"
    [[], [("x", .initialized)]] 1 (by rfl) (by rfl)).1
